import Mathlib

/-!
Verification of the partitioned on-disk storage layer of
torchbiggraph (graph_storages.py): chunked shard reads, the buffered
append-only column writer, the ragged-list (offsets, data) codec, the
atomic-publish write session, and the plain-text metadata helpers.

Machine integers (int64 tensor entries, HDF5 column values) are modelled
as unbounded Int; sizes and indices as Nat.  Python's
int(chunk_idx * num_edges / num_chunks) is modelled as exact rational
floor, i.e. Nat division of the product (floating point is out of scope;
the truncation of the exact real quotient is Nat division).
-/

namespace GraphStorages

/-- Supported format version stamped into every edge shard file
(FORMAT_VERSION = 1 in graph_storages.py). -/
def FORMAT_VERSION : Int := 1

/-- Start of chunk number chunk_idx out of num_chunks over a shard of
num_edges edges: begin = int(chunk_idx * num_edges / num_chunks)
(FileEdgeStorage.load_chunk_of_edges, line 409). -/
def chunkBegin (chunk_idx num_edges num_chunks : Nat) : Nat :=
  chunk_idx * num_edges / num_chunks

/-- End of chunk number chunk_idx out of num_chunks:
end = int((chunk_idx + 1) * num_edges / num_chunks)
(FileEdgeStorage.load_chunk_of_edges, line 410). -/
def chunkEnd (chunk_idx num_edges num_chunks : Nat) : Nat :=
  (chunk_idx + 1) * num_edges / num_chunks

/-- Capacity of the in-memory buffer of BufferedDataset:
BUFFER_SIZE = 2 ** 20 // 8. -/
def BUFFER_SIZE : Nat := 2 ^ 20 / 8

/-- State of one BufferedDataset: the resizable on-disk column
(self.dataset, held as the list of values written so far), the buffered
values (self.buffer[0:self.buffer_offset], so buffer_offset is
buffer.length), and self.total_data.  The class constant BUFFER_SIZE is
carried as a field so that statements quantify over the capacity; the
source fixes it to BUFFER_SIZE. -/
structure BufferedDataset where
  bufferSize : Nat
  disk : List Int
  buffer : List Int
  total_data : Nat
  deriving DecidableEq, Repr

/-- A freshly constructed BufferedDataset: zero-length on-disk dataset,
empty buffer, total_data = 0 (BufferedDataset.__init__). -/
def BufferedDataset.init (bufferSize : Nat) : BufferedDataset :=
  { bufferSize := bufferSize, disk := [], buffer := [], total_data := 0 }

/-- BufferedDataset.flush_buffer: when called non-finally it asserts the
buffer is exactly at capacity (assertion failure modelled as none);
when final with an empty buffer it returns immediately; otherwise it
grows the on-disk dataset by the buffered values and empties the
buffer. -/
def BufferedDataset.flush_buffer (ds : BufferedDataset) (last : Bool) :
    Option BufferedDataset :=
  if !last then
    if ds.buffer.length = ds.bufferSize then
      some { ds with disk := ds.disk ++ ds.buffer, buffer := [] }
    else
      none
  else if ds.buffer.length = 0 then
    some ds
  else
    some { ds with disk := ds.disk ++ ds.buffer, buffer := [] }

/-- The while-True loop of BufferedDataset.append, with rest the still
uncopied tail of the input tensor.  When the input fills the remaining
buffer space, the buffer is topped up to capacity and the inlined
flush_buffer moves it to disk (the guard is exactly flush_buffer's
non-final assertion, which also rules out the diverging bufferSize = 0
loop, vacuous for the source's positive BUFFER_SIZE); otherwise the
remainder is buffered and the loop breaks. -/
def BufferedDataset.appendLoop (ds : BufferedDataset) (rest : List Int) :
    Option BufferedDataset :=
  let buffer_left := ds.bufferSize - ds.buffer.length
  if h : buffer_left ≤ rest.length ∧
      ds.buffer.length + buffer_left = ds.bufferSize ∧ 0 < ds.bufferSize then
    BufferedDataset.appendLoop
      { ds with
        disk := ds.disk ++ (ds.buffer ++ rest.take buffer_left),
        buffer := [] }
      (rest.drop buffer_left)
  else if buffer_left ≤ rest.length then
    none
  else
    some { ds with buffer := ds.buffer ++ rest }
termination_by rest.length + ds.buffer.length
decreasing_by
  simp only [List.length_drop, List.length_nil]
  omega

/-- BufferedDataset.append: run the copy/flush loop over the whole input
tensor, then add its size to total_data. -/
def BufferedDataset.append (ds : BufferedDataset) (tensor : List Int) :
    Option BufferedDataset :=
  (ds.appendLoop tensor).map fun d =>
    { d with total_data := d.total_data + tensor.length }

/-- A sequence of append calls against one BufferedDataset. -/
def BufferedDataset.appendAll (ds : BufferedDataset) :
    List (List Int) → Option BufferedDataset
  | [] => some ds
  | t :: ts =>
    match ds.append t with
    | none => none
    | some d => d.appendAll ts

/-- In-memory ragged list (TensorList): offsets and a flat data array,
record i holding data[offsets[i] : offsets[i+1]].  Values are int64,
modelled as Int. -/
structure TensorList where
  offsets : List Int
  data : List Int
  deriving DecidableEq, Repr

/-- The named columns of one HDF5 file, as a partial map from dataset
name to flat int64 column contents.  Per the round-trip property of
BufferedDataset (the on-disk column after the final flush is exactly the
concatenation of the appended values), each column of the appender is
modelled by its flat contents and total_data by its length. -/
abbrev DSMap := String → Option (List Int)

/-- The file with no datasets yet. -/
def emptyDSMap : DSMap := fun _ => none

/-- FileEdgeAppender.append_tensor: create the named dataset on first
use (a fresh BufferedDataset holds no data, so absent and empty-created
coincide under getD) and append the tensor to it. -/
def append_tensor (m : DSMap) (name : String) (tensor : List Int) : DSMap :=
  let cur := (m name).getD []
  fun n => if n = name then some (cur ++ tensor) else m n

/-- FileEdgeAppender.append_tensor_list: on first append seed the
offsets column with a single 0; shift the incoming offsets by the data
column's current total_data and drop their leading entry; append the
shifted offsets and the raw data. -/
def append_tensor_list (m : DSMap) (name : String) (tl : TensorList) : DSMap :=
  let offsets_name := name ++ "_offsets"
  let data_name := name ++ "_data"
  let m1 := if (m offsets_name).isNone
    then append_tensor m offsets_name [0] else m
  let total : Nat := ((m1 data_name).getD []).length
  let offsets := (tl.offsets.drop 1).map (· + (total : Int))
  let m2 := append_tensor m1 offsets_name offsets
  append_tensor m2 data_name tl.data

/-- One endpoint list of an edge list: dense entity IDs plus the
optional ragged feature list (EntityList of entitylist.py, reduced to
the two members graph_storages.py reads). -/
structure EntityList where
  tensor : List Int
  tensor_list : TensorList
  deriving DecidableEq, Repr

/-- In-memory edge list: two endpoints and the relation-type column. -/
structure EdgeList where
  lhs : EntityList
  rhs : EntityList
  rel : List Int
  deriving DecidableEq, Repr

/-- FileEdgeAppender.append_edges: lhs, rhs, rel are written
unconditionally; the lhsd and rhsd ragged columns only when the
corresponding tensor_list has non-empty data. -/
def append_edges (m : DSMap) (edgelist : EdgeList) : DSMap :=
  let m := append_tensor m "lhs" edgelist.lhs.tensor
  let m := append_tensor m "rhs" edgelist.rhs.tensor
  let m := append_tensor m "rel" edgelist.rel
  let m := if edgelist.lhs.tensor_list.data.length ≠ 0
    then append_tensor_list m "lhsd" edgelist.lhs.tensor_list else m
  if edgelist.rhs.tensor_list.data.length ≠ 0
    then append_tensor_list m "rhsd" edgelist.rhs.tensor_list else m

/-- FileEdgeStorage.read_dynamic: slice records [b, e) of the named
ragged column.  If either sub-column is absent (LookupError), return the
zero-record-length representation.  Otherwise read offsets[b : e+1],
take data[offsets[0] : offsets[-1]], and normalize the offsets to start
at 0. -/
def read_dynamic (m : DSMap) (key : String) (b e : Nat) : TensorList :=
  match m (key ++ "_offsets"), m (key ++ "_data") with
  | some offsets_ds, some data_ds =>
    let offsets := (offsets_ds.drop b).take (e - b + 1)
    let data_begin := offsets.headD 0
    let data_end := offsets.getLastD 0
    let data := (data_ds.drop data_begin.toNat).take (data_end - data_begin).toNat
    { offsets := offsets.map (· - data_begin), data := data }
  | _, _ =>
    { offsets := List.replicate (e - b + 1) 0, data := [] }

/-- Canonical offsets of a ragged list given as its records: length
records + 1, entry i the total length of the first i records. -/
def roffsets : List (List Int) → List Int
  | [] => [0]
  | r :: rs => 0 :: (roffsets rs).map (· + (r.length : Int))

/-- The canonical TensorList holding the given records. -/
def ofRecords (rs : List (List Int)) : TensorList :=
  { offsets := roffsets rs, data := rs.flatten }

/-- The columns of a file to whose ragged column named name the records
rs have been appended (offsets seeded with 0, then one shifted offset
per record; data the concatenation). -/
def raggedState (name : String) (rs : List (List Int)) : DSMap :=
  fun n =>
    if n = name ++ "_offsets" then some (roffsets rs)
    else if n = name ++ "_data" then some rs.flatten
    else none

/-- A sequence of append_tensor_list calls against one named ragged
column of a fresh file. -/
def appendRaggedAll (name : String) (tls : List TensorList) : DSMap :=
  tls.foldl (fun m tl => append_tensor_list m name tl) emptyDSMap

/-- FileEdgeStorage.get_edges_file. -/
def get_edges_file (path : String) (lhs_p rhs_p : Nat) : String :=
  path ++ "/edges_" ++ toString lhs_p ++ "_" ++ toString rhs_p ++ ".h5"

/-- A finalized shard file: the format_version attribute (absent when
never stamped), the three required dense columns of the shard layout,
and the optional dynamic columns. -/
structure Shard where
  format_version : Option Int
  lhs : List Int
  rhs : List Int
  rel : List Int
  dyn : DSMap

/-- FileEdgeStorage.load_chunk_of_edges: fail when the shard file does
not exist or its format_version attribute is absent or unsupported
(both RuntimeError messages name the file path, as in the source); the
chunk arithmetic at line 409 divides by num_chunks, so num_chunks = 0
raises ZeroDivisionError before any read; otherwise slice the chunk
[begin, end) out of the dense columns and read the dynamic columns over
the same range.  The list drop/take coincide with the source's
read_direct on in-range chunks (chunk_idx < num_chunks forces
end ≤ num_edges); h5py's rejection of an out-of-range selection for
chunk_idx beyond num_chunks is not modelled, and the theorem about this
function is restricted to valid chunk indices accordingly. -/
def load_chunk_of_edges (fs : String → Option Shard) (path : String)
    (lhs_p rhs_p chunk_idx num_chunks : Nat) : Except String EdgeList :=
  let file_path := get_edges_file path lhs_p rhs_p
  match fs file_path with
  | none => .error (file_path ++ " does not exist")
  | some hf =>
    if hf.format_version ≠ some FORMAT_VERSION then
      .error ("Version mismatch in edge file " ++ file_path)
    else if num_chunks = 0 then
      .error "division by zero"
    else
      let num_edges := hf.rel.length
      let b := chunkBegin chunk_idx num_edges num_chunks
      let e := chunkEnd chunk_idx num_edges num_chunks
      let chunk_size := e - b
      let lhs := (hf.lhs.drop b).take chunk_size
      let rhs := (hf.rhs.drop b).take chunk_size
      let rel := (hf.rel.drop b).take chunk_size
      let lhsd := read_dynamic hf.dyn "lhsd" b e
      let rhsd := read_dynamic hf.dyn "rhsd" b e
      .ok { lhs := { tensor := lhs, tensor_list := lhsd },
            rhs := { tensor := rhs, tensor_list := rhsd },
            rel := rel }

/-- An HDF5 file being written: the format_version attribute and the
columns. -/
structure H5File where
  format_version : Option Int
  columns : DSMap

/-- The temporary file as the write session body first sees it: just
created (h5py mode "x" on a path whose stale occupant was unlinked), the
format_version attribute already stamped, no column data yet. -/
def initialTmpFile : H5File :=
  { format_version := some FORMAT_VERSION, columns := emptyDSMap }

/-- The two paths save_edges_by_appending can touch: the final shard
path and the temporary path derived from it. -/
structure EdgeDir where
  final : Option H5File
  tmp : Option H5File

/-- FileEdgeStorage.save_edges_by_appending: unlink any stale temporary
file, create the temporary file and stamp format_version, run the
session body against it (the body returns the written file, or the
partial file at the point of the error), flush and close on every exit
path, and rename the temporary file onto the final path only when the
body completed without error. -/
def save_edges_by_appending (d : EdgeDir)
    (body : H5File → Except H5File H5File) : EdgeDir :=
  match body initialTmpFile with
  | .ok hf => { final := some hf, tmp := none }
  | .error hf => { final := d.final, tmp := some hf }

/-- Decimal digits of a natural number, most significant first,
modelling what Python's f-string interpolation writes for a
non-negative int. -/
def natToDigits (n : Nat) : List Char :=
  if n < 10 then [Nat.digitChar n]
  else natToDigits (n / 10) ++ [Nat.digitChar (n % 10)]
termination_by n
decreasing_by exact Nat.div_lt_self (by omega) (by omega)

/-- Value of a digit string (the accumulator fold of decimal parsing). -/
def digitsToNat (s : List Char) : Nat :=
  s.foldl (fun a c => a * 10 + (c.toNat - 48)) 0

/-- Python str.strip(): remove leading and trailing whitespace. -/
def pyStrip (s : List Char) : List Char :=
  ((s.dropWhile Char.isWhitespace).reverse.dropWhile Char.isWhitespace).reverse

/-- Python int(string) on the non-negative inputs load_count meets: all
decimal digits and non-empty, else a ValueError (none). -/
def pyParseNat (s : List Char) : Option Nat :=
  if !s.isEmpty && s.all Char.isDigit then some (digitsToNat s) else none

/-- Errors of the metadata helpers: the distinguished CouldNotLoadData
raised on FileNotFoundError, and the ValueError of int() on a malformed
count file. -/
inductive MetaErr where
  | couldNotLoadData
  | valueError
  deriving DecidableEq, Repr

/-- Module-level save_count: the count file's content is the integer
followed by a newline. -/
def save_count (count : Nat) : List Char :=
  natToDigits count ++ ['\n']

/-- Module-level load_count: CouldNotLoadData when the file is absent,
else int() of the stripped content. -/
def load_count (file : Option (List Char)) : Except MetaErr Nat :=
  match file with
  | none => .error .couldNotLoadData
  | some s =>
    match pyParseNat (pyStrip s) with
    | some n => .ok n
    | none => .error .valueError

/-- Module-level load_names: CouldNotLoadData when the file is absent,
else the parsed JSON array (JSON (de)serialization is treated as opaque:
the file is modelled as holding the parsed name list). -/
def load_names (file : Option (List String)) : Except MetaErr (List String) :=
  match file with
  | none => .error .couldNotLoadData
  | some names => .ok names

namespace FileEntityStorage

/-- FileEntityStorage.get_count_file. -/
def get_count_file (path entity_name : String) (partition : Nat) : String :=
  path ++ "/entity_count_" ++ entity_name ++ "_" ++ toString partition ++ ".txt"

/-- FileEntityStorage.has_count: existence check on the count file,
with is_file the filesystem's existence predicate. -/
def has_count (is_file : String → Bool) (path entity_name : String)
    (partition : Nat) : Bool :=
  is_file (get_count_file path entity_name partition)

end FileEntityStorage

namespace FileRelationTypeStorage

/-- FileRelationTypeStorage.get_count_file. -/
def get_count_file (path : String) : String :=
  path ++ "/dynamic_rel_count.txt"

/-- FileRelationTypeStorage.has_count: the body returns the boolean
existence check on the count file (the source's return-type annotation
says None, but the returned value is this boolean). -/
def has_count (is_file : String → Bool) (path : String) : Bool :=
  is_file (get_count_file path)

end FileRelationTypeStorage

/-! ## Chunk tiling (claim C1) -/

theorem chunkEnd_eq_chunkBegin_succ (i num_edges num_chunks : Nat) :
    chunkEnd i num_edges num_chunks = chunkBegin (i + 1) num_edges num_chunks :=
  rfl

theorem chunkBegin_mono {i j : Nat} (num_edges num_chunks : Nat) (hij : i ≤ j) :
    chunkBegin i num_edges num_chunks ≤ chunkBegin j num_edges num_chunks :=
  Nat.div_le_div_right (Nat.mul_le_mul_right _ hij)

theorem chunkBegin_zero (num_edges num_chunks : Nat) :
    chunkBegin 0 num_edges num_chunks = 0 := by
  simp [chunkBegin]

theorem chunkEnd_last (num_edges num_chunks : Nat) (hk : 1 ≤ num_chunks) :
    chunkEnd (num_chunks - 1) num_edges num_chunks = num_edges := by
  unfold chunkEnd
  rw [Nat.sub_add_cancel hk]
  exact Nat.mul_div_cancel_left num_edges hk

theorem chunkEnd_le (i num_edges num_chunks : Nat) (hi : i < num_chunks) :
    chunkEnd i num_edges num_chunks ≤ num_edges := by
  calc chunkEnd i num_edges num_chunks
      ≤ num_chunks * num_edges / num_chunks :=
        Nat.div_le_div_right (Nat.mul_le_mul_right _ hi)
    _ = num_edges := Nat.mul_div_cancel_left num_edges (by omega)

theorem chunk_cover (num_edges num_chunks : Nat) :
    ∀ i x, x < chunkEnd i num_edges num_chunks →
      ∃ j, j ≤ i ∧ chunkBegin j num_edges num_chunks ≤ x ∧
        x < chunkEnd j num_edges num_chunks := by
  intro i
  induction i with
  | zero =>
    intro x hx
    exact ⟨0, le_refl 0, by simp [chunkBegin_zero], hx⟩
  | succ i ih =>
    intro x hx
    by_cases hcase : x < chunkEnd i num_edges num_chunks
    · obtain ⟨j, hj, h1, h2⟩ := ih x hcase
      exact ⟨j, Nat.le_succ_of_le hj, h1, h2⟩
    · refine ⟨i + 1, le_refl _, ?_, hx⟩
      rw [← chunkEnd_eq_chunkBegin_succ]
      omega

/-- Claim C1: for every number of edges, every positive number of
chunks, and chunk indices below num_chunks, the ranges
[chunkBegin i, chunkEnd i) computed by load_chunk_of_edges are ordered
(hence pairwise disjoint), each is a well-formed interval, and their
union is exactly [0, num_edges); concretely num_edges = 10,
num_chunks = 3 yields the chunks [0,3), [3,6), [6,10). -/
theorem chunk_tiling (num_edges num_chunks : Nat) (hk : 1 ≤ num_chunks) :
    (∀ i j, i < j → j < num_chunks →
      chunkEnd i num_edges num_chunks ≤ chunkBegin j num_edges num_chunks) ∧
    (∀ i, chunkBegin i num_edges num_chunks ≤ chunkEnd i num_edges num_chunks) ∧
    (∀ x, x < num_edges ↔ ∃ i, i < num_chunks ∧
      chunkBegin i num_edges num_chunks ≤ x ∧
      x < chunkEnd i num_edges num_chunks) ∧
    (chunkBegin 0 10 3 = 0 ∧ chunkEnd 0 10 3 = 3 ∧
     chunkBegin 1 10 3 = 3 ∧ chunkEnd 1 10 3 = 6 ∧
     chunkBegin 2 10 3 = 6 ∧ chunkEnd 2 10 3 = 10) := by
  refine ⟨?_, ?_, ?_, by decide⟩
  · intro i j hij hj
    rw [chunkEnd_eq_chunkBegin_succ]
    exact chunkBegin_mono num_edges num_chunks hij
  · intro i
    rw [chunkEnd_eq_chunkBegin_succ]
    exact chunkBegin_mono num_edges num_chunks (Nat.le_succ i)
  · intro x
    constructor
    · intro hx
      have hlast : x < chunkEnd (num_chunks - 1) num_edges num_chunks := by
        rw [chunkEnd_last num_edges num_chunks hk]; exact hx
      obtain ⟨j, hj, h1, h2⟩ := chunk_cover num_edges num_chunks _ x hlast
      exact ⟨j, by omega, h1, h2⟩
    · rintro ⟨i, hi, _, h2⟩
      exact lt_of_lt_of_le h2 (chunkEnd_le i num_edges num_chunks hi)

/-- Witness for claim C1 at num_edges = 10, num_chunks = 3. -/
theorem chunk_tiling_witness :
    chunkEnd 0 10 3 ≤ chunkBegin 1 10 3 :=
  (chunk_tiling 10 3 (by decide)).1 0 1 (by decide) (by decide)

/-! ## Loader error conditions (claim C6) -/

/-- Claim C6 (amended): for valid chunk parameters (num_chunks at least
1 and chunk_idx below num_chunks, the loader's contract and exactly the
bounds of claim C1), load_chunk_of_edges fails with a RuntimeError
naming the file path exactly when the shard file does not exist or its
format_version attribute is absent or not the supported version; in
every other case it returns an edge list.  Outside that range the
source does not return an edge list: num_chunks = 0 raises
ZeroDivisionError (see the counterexample), and an out-of-range
chunk_idx can fail inside the HDF5 read. -/
theorem load_chunk_errors (fs : String → Option Shard) (path : String)
    (lhs_p rhs_p chunk_idx num_chunks : Nat) (hk : 1 ≤ num_chunks)
    (hci : chunk_idx < num_chunks) :
    (∀ msg, load_chunk_of_edges fs path lhs_p rhs_p chunk_idx num_chunks
        = .error msg ↔
      ((fs (get_edges_file path lhs_p rhs_p) = none ∧
        msg = get_edges_file path lhs_p rhs_p ++ " does not exist") ∨
       (∃ hf, fs (get_edges_file path lhs_p rhs_p) = some hf ∧
        hf.format_version ≠ some FORMAT_VERSION ∧
        msg = "Version mismatch in edge file "
          ++ get_edges_file path lhs_p rhs_p))) ∧
    (∀ hf, fs (get_edges_file path lhs_p rhs_p) = some hf →
      hf.format_version = some FORMAT_VERSION →
      ∃ el, load_chunk_of_edges fs path lhs_p rhs_p chunk_idx num_chunks
        = .ok el) := by
  have hnz : num_chunks ≠ 0 := by omega
  constructor
  · intro msg
    simp only [load_chunk_of_edges]
    cases hfs : fs (get_edges_file path lhs_p rhs_p) with
    | none => simp [eq_comm]
    | some hf =>
      by_cases hv : hf.format_version = some FORMAT_VERSION
      · simp [hv, hnz]
      · simp [hv, eq_comm]
  · intro hf hfs hv
    simp only [load_chunk_of_edges]
    rw [hfs]
    simp [hv, hnz]

/-- Witness for claim C6: a present shard with the supported version is
loaded without error when asked for chunk 0 of 1. -/
theorem load_chunk_errors_witness :
    ∃ el, load_chunk_of_edges
      (fun p => if p = get_edges_file "data" 0 1 then
        some { format_version := some FORMAT_VERSION, lhs := [7],
               rhs := [8], rel := [9], dyn := emptyDSMap }
        else none)
      "data" 0 1 0 1 = .ok el :=
  (load_chunk_errors _ "data" 0 1 0 1 (by decide) (by decide)).2
    { format_version := some FORMAT_VERSION, lhs := [7], rhs := [8],
      rel := [9], dyn := emptyDSMap }
    (by simp) rfl

/-- The original claim C6 is false outside the valid chunk range: with
the shard present and carrying the supported format version, asking for
chunk 0 of 0 chunks does not return an edge list — the source raises
ZeroDivisionError at the chunk arithmetic (line 409), an error that is
neither of the two path-naming RuntimeErrors. -/
theorem load_chunk_errors_counterexample :
    load_chunk_of_edges
      (fun p => if p = get_edges_file "data" 0 1 then
        some { format_version := some FORMAT_VERSION, lhs := [7],
               rhs := [8], rel := [9], dyn := emptyDSMap }
        else none)
      "data" 0 1 0 0 = .error "division by zero" := by
  simp [load_chunk_of_edges]

/-! ## Atomic publish (claim C3) -/

/-- Claim C3: the write session of save_edges_by_appending hands the
body a freshly created temporary file that is already stamped with
format_version and holds no column data (so the stamp precedes every
column write, and a stale temporary file never survives); the temporary
file is renamed onto the final shard path exactly when the body
completes without error, and a failed session leaves the final path
untouched. -/
theorem save_session_atomic (d : EdgeDir)
    (body : H5File → Except H5File H5File) :
    (initialTmpFile.format_version = some FORMAT_VERSION ∧
      ∀ n, initialTmpFile.columns n = none) ∧
    (∀ hf, body initialTmpFile = .error hf →
      save_edges_by_appending d body = { final := d.final, tmp := some hf }) ∧
    (∀ hf, body initialTmpFile = .ok hf →
      save_edges_by_appending d body = { final := some hf, tmp := none }) := by
  refine ⟨⟨rfl, fun n => rfl⟩, ?_, ?_⟩ <;>
    intro hf h <;> simp [save_edges_by_appending, h]

/-- Witness for claim C3: a body that fails leaves the previously
finalized shard in place and the partial file only at the temporary
path. -/
theorem save_session_atomic_witness :
    save_edges_by_appending
      { final := some initialTmpFile, tmp := none }
      (fun f => .error f)
      = { final := some initialTmpFile, tmp := some initialTmpFile } :=
  (save_session_atomic { final := some initialTmpFile, tmp := none }
    (fun f => .error f)).2.1 initialTmpFile rfl

/-! ## Metadata store (claim C7) -/

theorem digitChar_facts :
    ∀ m, m < 10 → (Nat.digitChar m).isWhitespace = false ∧
      (Nat.digitChar m).isDigit = true ∧
      (Nat.digitChar m).toNat - 48 = m ∧ Nat.digitChar m ≠ '\n' := by
  decide

theorem natToDigits_mem (n : Nat) :
    ∀ c ∈ natToDigits n, ∃ m, m < 10 ∧ c = Nat.digitChar m := by
  induction n using natToDigits.induct with
  | case1 n h =>
    intro c hc
    rw [natToDigits, if_pos h] at hc
    simp at hc
    exact ⟨n, h, hc⟩
  | case2 n h ih =>
    intro c hc
    rw [natToDigits, if_neg h] at hc
    rcases List.mem_append.mp hc with h1 | h2
    · exact ih c h1
    · simp at h2
      exact ⟨n % 10, Nat.mod_lt n (by omega), h2⟩

theorem natToDigits_ne_nil (n : Nat) : natToDigits n ≠ [] := by
  rw [natToDigits]
  split <;> simp

theorem digitsToNat_natToDigits (n : Nat) :
    digitsToNat (natToDigits n) = n := by
  induction n using natToDigits.induct with
  | case1 n h =>
    rw [natToDigits, if_pos h]
    simp [digitsToNat, (digitChar_facts n h).2.2.1]
  | case2 n h ih =>
    rw [natToDigits, if_neg h]
    unfold digitsToNat at ih ⊢
    rw [List.foldl_append, ih]
    simp [(digitChar_facts (n % 10) (Nat.mod_lt n (by omega))).2.2.1]
    omega

theorem dropWhile_digit_cons (c : Char) (t : List Char)
    (h : ∃ m, m < 10 ∧ c = Nat.digitChar m) :
    (c :: t).dropWhile Char.isWhitespace = c :: t := by
  obtain ⟨m, hm, rfl⟩ := h
  simp [List.dropWhile_cons, (digitChar_facts m hm).1]

theorem pyStrip_save (s : List Char)
    (hs : ∀ c ∈ s, ∃ m, m < 10 ∧ c = Nat.digitChar m) (hne : s ≠ []) :
    pyStrip (s ++ ['\n']) = s := by
  unfold pyStrip
  obtain ⟨c, t, rfl⟩ := List.exists_cons_of_ne_nil hne
  have h1 : ((c :: t) ++ ['\n']).dropWhile Char.isWhitespace
      = (c :: t) ++ ['\n'] := by
    rw [List.cons_append, dropWhile_digit_cons c (t ++ ['\n']) (hs c (by simp))]
  rw [h1]
  have hrev : ((c :: t) ++ ['\n']).reverse = '\n' :: (c :: t).reverse := by
    simp
  rw [hrev]
  have hnl : ('\n' : Char).isWhitespace = true := by decide
  have h2 : ('\n' :: (c :: t).reverse).dropWhile Char.isWhitespace
      = (c :: t).reverse.dropWhile Char.isWhitespace := by
    simp [List.dropWhile_cons, hnl]
  rw [h2]
  have h3 : (c :: t).reverse.dropWhile Char.isWhitespace = (c :: t).reverse := by
    cases hr : (c :: t).reverse with
    | nil => rfl
    | cons c' t' =>
      have hc' : c' ∈ (c :: t).reverse := by rw [hr]; simp
      exact dropWhile_digit_cons c' t' (hs c' (List.mem_reverse.mp hc'))
  rw [h3, List.reverse_reverse]

theorem pyParseNat_natToDigits (n : Nat) :
    pyParseNat (natToDigits n) = some n := by
  unfold pyParseNat
  have hne : (natToDigits n).isEmpty = false := by
    cases h : natToDigits n with
    | nil => exact absurd h (natToDigits_ne_nil n)
    | cons c t => rfl
  have hall : (natToDigits n).all Char.isDigit = true := by
    rw [List.all_eq_true]
    intro c hc
    obtain ⟨m, hm, rfl⟩ := natToDigits_mem n c hc
    exact (digitChar_facts m hm).2.1
  rw [hne, hall]
  simp [digitsToNat_natToDigits]

/-- Claim C7: load_count and load_names raise CouldNotLoadData exactly
when the backing file is absent; save_count writes the count as a
single digit line with a trailing newline, and load_count reads it
back. -/
theorem metadata_count :
    (∀ f, load_count f = .error .couldNotLoadData ↔ f = none) ∧
    (∀ f, load_names f = .error .couldNotLoadData ↔ f = none) ∧
    (∀ count : Nat,
      (save_count count).getLast? = some '\n' ∧
      (∀ c ∈ (save_count count).dropLast, c ≠ '\n') ∧
      load_count (some (save_count count)) = .ok count) := by
  refine ⟨?_, ?_, ?_⟩
  · intro f
    cases f with
    | none => simp [load_count]
    | some s =>
      simp only [load_count]
      cases pyParseNat (pyStrip s) <;> simp
  · intro f
    cases f <;> simp [load_names]
  · intro count
    refine ⟨?_, ?_, ?_⟩
    · unfold save_count
      exact List.getLast?_concat _
    · unfold save_count
      rw [List.dropLast_concat]
      intro c hc
      obtain ⟨m, hm, rfl⟩ := natToDigits_mem count c hc
      exact (digitChar_facts m hm).2.2.2
    · have h1 : pyStrip (save_count count) = natToDigits count := by
        unfold save_count
        exact pyStrip_save _ (natToDigits_mem count) (natToDigits_ne_nil count)
      simp [load_count, h1, pyParseNat_natToDigits]

/-- Witness for claim C7: the count 37 round-trips through its file. -/
theorem metadata_count_witness :
    load_count (some (save_count 37)) = .ok 37 :=
  (metadata_count.2.2 37).2.2

/-! ## Relation-type has_count (claim C10) -/

/-- Claim C10: FileRelationTypeStorage.has_count returns the boolean
existence check on the relation-type count file, exactly the behaviour
of its sibling FileEntityStorage.has_count on the entity count file
(the source's return-type annotation of None notwithstanding, its body
returns this boolean). -/
theorem has_count_boolean (is_file : String → Bool)
    (path entity_name : String) (partition : Nat) :
    (FileRelationTypeStorage.has_count is_file path = true ↔
      is_file (FileRelationTypeStorage.get_count_file path) = true) ∧
    FileRelationTypeStorage.has_count is_file path =
      is_file (FileRelationTypeStorage.get_count_file path) ∧
    FileEntityStorage.has_count is_file path entity_name partition =
      is_file (FileEntityStorage.get_count_file path entity_name partition) :=
  ⟨Iff.rfl, rfl, rfl⟩

/-! ## Buffered column writer (claims C2, C8, C9) -/

theorem BufferedDataset.appendLoop_spec :
    ∀ (ds : BufferedDataset) (rest : List Int),
    0 < ds.bufferSize → ds.buffer.length ≤ ds.bufferSize →
    ∃ ds', ds.appendLoop rest = some ds' ∧
      ds'.bufferSize = ds.bufferSize ∧
      ds'.total_data = ds.total_data ∧
      ds'.disk ++ ds'.buffer = ds.disk ++ ds.buffer ++ rest ∧
      ds'.buffer.length < ds.bufferSize ∧
      (ds.disk.length % ds.bufferSize = 0 →
        ds'.disk.length % ds.bufferSize = 0) := by
  intro ds rest
  induction ds, rest using BufferedDataset.appendLoop.induct with
  | case1 ds rest bl hg ih =>
    intro hB hbuf
    rw [BufferedDataset.appendLoop]
    simp only [dif_pos hg]
    obtain ⟨ds', heq, hsz, htot, hdata, hlt, hmod⟩ :=
      ih hB (by simp)
    refine ⟨ds', heq, hsz, htot, ?_, hlt, ?_⟩
    · rw [hdata]
      simp only [List.append_nil, List.append_assoc, List.take_append_drop]
    · intro h0
      apply hmod
      simp only [List.length_append, List.length_take]
      have hbl : min (ds.bufferSize - ds.buffer.length) rest.length
          = ds.bufferSize - ds.buffer.length := Nat.min_eq_left hg.1
      rw [hbl]
      have hstep : ds.disk.length + (ds.buffer.length +
          (ds.bufferSize - ds.buffer.length))
          = ds.disk.length + ds.bufferSize := by omega
      rw [hstep, Nat.add_mod_right, h0]
  | case2 ds rest bl hg h2 =>
    intro hB hbuf
    exact absurd ⟨h2, by omega, hB⟩ hg
  | case3 ds rest bl hg h2 =>
    intro hB hbuf
    rw [BufferedDataset.appendLoop]
    simp only [dif_neg hg, if_neg h2]
    refine ⟨_, rfl, rfl, rfl, by simp, ?_, fun h0 => h0⟩
    simp only [List.length_append]
    omega

theorem BufferedDataset.append_spec (ds : BufferedDataset) (t : List Int)
    (hB : 0 < ds.bufferSize) (hbuf : ds.buffer.length ≤ ds.bufferSize) :
    ∃ ds', ds.append t = some ds' ∧
      ds'.bufferSize = ds.bufferSize ∧
      ds'.total_data = ds.total_data + t.length ∧
      ds'.disk ++ ds'.buffer = ds.disk ++ ds.buffer ++ t ∧
      ds'.buffer.length < ds.bufferSize ∧
      (ds.disk.length % ds.bufferSize = 0 →
        ds'.disk.length % ds.bufferSize = 0) := by
  obtain ⟨d, heq, hsz, htot, hdata, hlt, hmod⟩ :=
    BufferedDataset.appendLoop_spec ds t hB hbuf
  refine ⟨{ d with total_data := d.total_data + t.length }, ?_, hsz, ?_, hdata,
    hlt, hmod⟩
  · rw [BufferedDataset.append, heq, Option.map_some']
  · simp [htot]

theorem BufferedDataset.appendAll_spec :
    ∀ (ts : List (List Int)) (ds : BufferedDataset),
    0 < ds.bufferSize → ds.buffer.length < ds.bufferSize →
    ∃ ds', ds.appendAll ts = some ds' ∧
      ds'.bufferSize = ds.bufferSize ∧
      ds'.total_data = ds.total_data + (ts.map List.length).sum ∧
      ds'.disk ++ ds'.buffer = ds.disk ++ ds.buffer ++ ts.flatten ∧
      ds'.buffer.length < ds.bufferSize ∧
      (ds.disk.length % ds.bufferSize = 0 →
        ds'.disk.length % ds.bufferSize = 0) := by
  intro ts
  induction ts with
  | nil =>
    intro ds hB hbuf
    exact ⟨ds, rfl, rfl, by simp, by simp, hbuf, fun h => h⟩
  | cons t ts ih =>
    intro ds hB hbuf
    obtain ⟨d, heq, hsz, htot, hdata, hlt, hmod⟩ :=
      BufferedDataset.append_spec ds t hB (le_of_lt hbuf)
    obtain ⟨d', heq', hsz', htot', hdata', hlt', hmod'⟩ :=
      ih d (hsz ▸ hB) (hsz ▸ hlt)
    refine ⟨d', ?_, by rw [hsz', hsz], ?_, ?_, by rw [← hsz]; exact hlt', ?_⟩
    · rw [BufferedDataset.appendAll, heq]
      exact heq'
    · rw [htot', htot]
      simp [Nat.add_assoc]
    · rw [hdata', hdata]
      simp [List.append_assoc]
    · intro h0
      rw [← hsz]
      exact hmod' (hsz ▸ hmod h0)

/-- Claim C2: for every buffer capacity and every sequence of appended
tensors, the whole sequence of appends succeeds and, after the final
flush, the on-disk column is exactly the concatenation of the appended
values and its length equals total_data. -/
theorem buffered_round_trip (B : Nat) (hB : 0 < B) (ts : List (List Int)) :
    ∃ ds ds', (BufferedDataset.init B).appendAll ts = some ds ∧
      ds.flush_buffer true = some ds' ∧
      ds'.disk = ts.flatten ∧
      ds'.disk.length = ds'.total_data := by
  obtain ⟨ds, heq, hsz, htot, hdata, hlt, _⟩ :=
    BufferedDataset.appendAll_spec ts (BufferedDataset.init B) hB hB
  simp only [BufferedDataset.init] at htot hdata
  rw [List.nil_append, List.nil_append] at hdata
  rw [Nat.zero_add] at htot
  by_cases hb : ds.buffer.length = 0
  · refine ⟨ds, ds, heq, ?_, ?_, ?_⟩
    · rw [BufferedDataset.flush_buffer]
      simp [hb]
    · rw [List.length_eq_zero] at hb
      rw [hb, List.append_nil] at hdata
      exact hdata
    · rw [List.length_eq_zero] at hb
      rw [hb, List.append_nil] at hdata
      rw [hdata, htot, List.length_flatten]
  · refine ⟨ds, { ds with disk := ds.disk ++ ds.buffer, buffer := [] },
      heq, ?_, hdata, ?_⟩
    · rw [BufferedDataset.flush_buffer]
      simp [hb]
    · simp only [hdata, htot, List.length_flatten]

/-- Witness for claim C2 with capacity 2: two flushes at capacity and a
final partial flush produce the concatenation on disk. -/
theorem buffered_round_trip_witness :
    ∃ ds ds', (BufferedDataset.init 2).appendAll [[1, 2, 3], [4]] = some ds ∧
      ds.flush_buffer true = some ds' ∧
      ds'.disk = [1, 2, 3, 4] ∧
      ds'.disk.length = ds'.total_data := by
  have h := buffered_round_trip 2 (by decide) [[1, 2, 3], [4]]
  simpa using h

/-- Claim C8: a non-final flush_buffer call fails its assertion exactly
when the buffer is not at capacity, and under append's discipline the
failure branch is unreachable: every sequence of appends against a
fresh BufferedDataset succeeds. -/
theorem flush_assertion :
    (∀ ds : BufferedDataset,
      ds.flush_buffer false = none ↔ ds.buffer.length ≠ ds.bufferSize) ∧
    (∀ (B : Nat) (ts : List (List Int)), 0 < B →
      ∃ ds, (BufferedDataset.init B).appendAll ts = some ds) := by
  constructor
  · intro ds
    rw [BufferedDataset.flush_buffer]
    by_cases h : ds.buffer.length = ds.bufferSize <;> simp [h]
  · intro B ts hB
    obtain ⟨ds, heq, _⟩ := BufferedDataset.appendAll_spec ts
      (BufferedDataset.init B) hB hB
    exact ⟨ds, heq⟩

/-- Witness for claim C8: appends that cross the flush boundary at
capacity 2 succeed. -/
theorem flush_assertion_witness :
    ∃ ds, (BufferedDataset.init 2).appendAll [[1, 2, 3]] = some ds :=
  flush_assertion.2 2 [[1, 2, 3]] (by decide)

/-- The invariant of claim C9: on-disk length plus buffered length is
total_data, the buffer is strictly below capacity, and the on-disk
length is a multiple of the capacity (no partial flush yet). -/
def BufferedDataset.Inv (ds : BufferedDataset) : Prop :=
  ds.disk.length + ds.buffer.length = ds.total_data ∧
  ds.buffer.length < ds.bufferSize ∧
  ds.disk.length % ds.bufferSize = 0

/-- Claim C9: the invariant holds on construction and is preserved by
every successful append (which also preserves the capacity). -/
theorem buffered_invariant :
    (∀ B : Nat, 0 < B → (BufferedDataset.init B).Inv) ∧
    (∀ (ds ds' : BufferedDataset) (t : List Int), ds.Inv →
      ds.append t = some ds' → ds'.Inv ∧ ds'.bufferSize = ds.bufferSize) := by
  constructor
  · intro B hB
    exact ⟨rfl, hB, by simp [BufferedDataset.init]⟩
  · intro ds ds' t hInv heq
    obtain ⟨hbal, hlt, hmod⟩ := hInv
    have hB : 0 < ds.bufferSize := by omega
    obtain ⟨d, heq', hsz, htot, hdata, hlt', hmod'⟩ :=
      BufferedDataset.append_spec ds t hB (le_of_lt hlt)
    rw [heq'] at heq
    cases heq
    refine ⟨⟨?_, by rw [hsz]; exact hlt', by rw [hsz]; exact hmod' hmod⟩, hsz⟩
    have := congrArg List.length hdata
    simp only [List.length_append] at this
    omega

/-- Witness for claim C9: a concrete append against a fresh writer of
capacity 2 preserves the invariant. -/
theorem buffered_invariant_witness :
    ∃ ds', (BufferedDataset.init 2).append [1, 2, 3] = some ds' ∧
      ds'.Inv ∧ ds'.bufferSize = 2 := by
  obtain ⟨ds', heq, _⟩ := BufferedDataset.append_spec
    (BufferedDataset.init 2) [1, 2, 3] (by decide) (by decide)
  have h := buffered_invariant.2 (BufferedDataset.init 2) ds' [1, 2, 3]
    (buffered_invariant.1 2 (by decide)) heq
  exact ⟨ds', heq, h.1, h.2⟩

/-! ## Ragged list codec (claims C4, C5) -/

theorem roffsets_exists_cons (rs : List (List Int)) :
    ∃ t, roffsets rs = (0 : Int) :: t := by
  cases rs with
  | nil => exact ⟨[], rfl⟩
  | cons r rs => exact ⟨_, rfl⟩

theorem roffsets_length (rs : List (List Int)) :
    (roffsets rs).length = rs.length + 1 := by
  induction rs with
  | nil => rfl
  | cons r rs ih => simp [roffsets, ih]

/-- Total data length of the first i records, as an offset value. -/
def psumLen (rs : List (List Int)) (i : Nat) : Int :=
  ((rs.take i).flatten.length : Int)

theorem psumLen_add (rs : List (List Int)) (b i : Nat) :
    psumLen rs (b + i)
      = psumLen rs b + (((rs.drop b).take i).flatten.length : Int) := by
  unfold psumLen
  rw [List.take_add, List.flatten_append, List.length_append]
  push_cast
  ring

theorem roffsets_getElem? (rs : List (List Int)) :
    ∀ i : Nat, i ≤ rs.length → (roffsets rs)[i]? = some (psumLen rs i) := by
  induction rs with
  | nil =>
    intro i hi
    cases i with
    | zero => rfl
    | succ j => simp at hi
  | cons r rs ih =>
    intro i hi
    cases i with
    | zero => simp [roffsets, psumLen]
    | succ j =>
      have hj : j ≤ rs.length := by simpa using hi
      simp only [roffsets, List.getElem?_cons_succ, List.getElem?_map, ih j hj,
        Option.map_some']
      unfold psumLen
      simp only [List.take_succ_cons, List.flatten_cons, List.length_append]
      push_cast
      ring_nf

theorem roffsets_append (acc rs : List (List Int)) :
    roffsets (acc ++ rs)
      = roffsets acc
        ++ (roffsets rs).tail.map (· + (acc.flatten.length : Int)) := by
  induction acc with
  | nil =>
    obtain ⟨t, ht⟩ := roffsets_exists_cons rs
    simp [ht, roffsets]
  | cons a acc ih =>
    simp only [List.cons_append, roffsets, List.append_eq]
    rw [ih]
    simp only [List.map_append, List.map_map, List.cons_append]
    congr 2
    apply List.map_congr_left
    intro x _
    simp only [Function.comp_apply, List.flatten_cons, List.length_append]
    push_cast
    ring

theorem append_tensor_ne (m : DSMap) (name : String) (tensor : List Int)
    (n : String) (h : n ≠ name) : append_tensor m name tensor n = m n := by
  simp [append_tensor, h]

theorem data_ne_offsets (name : String) :
    name ++ "_data" ≠ name ++ "_offsets" := by
  intro h
  have hlen := congrArg String.length h
  rw [String.length_append, String.length_append] at hlen
  have h5 : ("_data" : String).length = 5 := rfl
  have h8 : ("_offsets" : String).length = 8 := rfl
  omega

theorem raggedState_offsets (name : String) (acc : List (List Int)) :
    raggedState name acc (name ++ "_offsets") = some (roffsets acc) := by
  simp [raggedState]

theorem raggedState_data (name : String) (acc : List (List Int)) :
    raggedState name acc (name ++ "_data") = some acc.flatten := by
  simp [raggedState, data_ne_offsets name]

theorem raggedState_other (name : String) (acc : List (List Int)) (n : String)
    (h1 : n ≠ name ++ "_offsets") (h2 : n ≠ name ++ "_data") :
    raggedState name acc n = none := by
  simp [raggedState, h1, h2]

theorem append_tensor_list_empty (name : String) (rs : List (List Int)) :
    append_tensor_list emptyDSMap name (ofRecords rs)
      = raggedState name rs := by
  have hne := data_ne_offsets name
  funext n
  simp only [append_tensor_list, ofRecords, emptyDSMap, Option.isNone_none,
    if_true, append_tensor, if_neg hne, Option.getD_none, List.length_nil,
    Nat.cast_zero, if_pos rfl, Option.getD_some, List.nil_append]
  obtain ⟨t, ht⟩ := roffsets_exists_cons rs
  by_cases hD : n = name ++ "_data"
  · subst hD
    simp only [if_pos rfl, if_neg hne, raggedState_data]
    simp
  · by_cases hO : n = name ++ "_offsets"
    · subst hO
      simp only [if_neg (Ne.symm hne), if_pos rfl, raggedState_offsets]
      simp [ht, List.drop_one]
    · simp only [if_neg hD, if_neg hO, raggedState_other name rs n hO hD]

theorem append_tensor_list_state (name : String) (acc rs : List (List Int)) :
    append_tensor_list (raggedState name acc) name (ofRecords rs)
      = raggedState name (acc ++ rs) := by
  have hne := data_ne_offsets name
  funext n
  simp only [append_tensor_list, ofRecords, raggedState_offsets,
    raggedState_data, Option.isNone_some, Bool.false_eq_true, if_false,
    Option.getD_some, append_tensor, if_neg hne, if_pos rfl]
  by_cases hD : n = name ++ "_data"
  · subst hD
    simp only [if_pos rfl, if_neg hne, raggedState_data, List.flatten_append]
    simp
  · by_cases hO : n = name ++ "_offsets"
    · subst hO
      simp only [if_neg (Ne.symm hne), if_pos rfl, raggedState_offsets,
        roffsets_append, List.drop_one]
      simp
    · simp only [if_neg hD, if_neg hO, raggedState_other name acc n hO hD,
        raggedState_other name (acc ++ rs) n hO hD]

theorem appendRaggedAll_state (name : String) (r : List (List Int))
    (rss : List (List (List Int))) :
    appendRaggedAll name ((r :: rss).map ofRecords)
      = raggedState name (r :: rss).flatten := by
  suffices h : ∀ (rss : List (List (List Int))) (acc : List (List Int)),
      List.foldl (fun m tl => append_tensor_list m name tl)
        (raggedState name acc) (rss.map ofRecords)
      = raggedState name (acc ++ rss.flatten) by
    unfold appendRaggedAll
    rw [List.map_cons, List.foldl_cons, append_tensor_list_empty, h rss r]
    simp
  intro rss
  induction rss with
  | nil => intro acc; simp
  | cons r' rss ih =>
    intro acc
    rw [List.map_cons, List.foldl_cons, append_tensor_list_state, ih]
    simp

theorem read_dynamic_state (name : String) (rs : List (List Int)) (b e : Nat)
    (hbe : b ≤ e) (he : e ≤ rs.length) :
    read_dynamic (raggedState name rs) name b e
      = ofRecords ((rs.drop b).take (e - b)) := by
  have hslice_len : ((rs.drop b).take (e - b)).length = e - b := by
    rw [List.length_take, List.length_drop]
    omega
  have hget : ∀ i : Nat, i ≤ e - b →
      (((roffsets rs).drop b).take (e - b + 1))[i]? = some (psumLen rs (b + i)) := by
    intro i hi
    rw [List.getElem?_take, if_pos (by omega), List.getElem?_drop]
    exact roffsets_getElem? rs (b + i) (by omega)
  have hlen_offs : (((roffsets rs).drop b).take (e - b + 1)).length = e - b + 1 := by
    rw [List.length_take, List.length_drop, roffsets_length]
    omega
  have hhead : (((roffsets rs).drop b).take (e - b + 1)).headD 0 = psumLen rs b := by
    rw [List.headD_eq_head?_getD, List.head?_eq_getElem?]
    have h0 := hget 0 (by omega)
    rw [Nat.add_zero] at h0
    rw [h0]
    rfl
  have hlast : (((roffsets rs).drop b).take (e - b + 1)).getLastD 0
      = psumLen rs e := by
    rw [List.getLastD_eq_getLast?, List.getLast?_eq_getElem?, hlen_offs]
    have hl := hget (e - b) (le_refl _)
    have hbe' : b + (e - b) = e := by omega
    rw [hbe'] at hl
    simp only [Nat.add_sub_cancel]
    rw [hl]
    rfl
  have hsub : psumLen rs e - psumLen rs b
      = (((rs.drop b).take (e - b)).flatten.length : Int) := by
    have hadd := psumLen_add rs b (e - b)
    rw [show b + (e - b) = e by omega] at hadd
    rw [hadd]
    ring
  have hdata : ((rs.flatten.drop (psumLen rs b).toNat).take
      ((psumLen rs e - psumLen rs b)).toNat)
      = ((rs.drop b).take (e - b)).flatten := by
    have hb' : (psumLen rs b).toNat = (rs.take b).flatten.length := by
      unfold psumLen
      exact Int.toNat_natCast _
    have hsub' : ((psumLen rs e - psumLen rs b)).toNat
        = ((rs.drop b).take (e - b)).flatten.length := by
      rw [hsub]
      exact Int.toNat_natCast _
    rw [hb', hsub']
    have hsplit : rs.flatten = (rs.take b).flatten ++ (rs.drop b).flatten := by
      conv_lhs => rw [← List.take_append_drop b rs]
      rw [List.flatten_append]
    rw [hsplit, List.drop_left]
    have hsplit2 : (rs.drop b).flatten
        = ((rs.drop b).take (e - b)).flatten
          ++ ((rs.drop b).drop (e - b)).flatten := by
      conv_lhs => rw [← List.take_append_drop (e - b) (rs.drop b)]
      rw [List.flatten_append]
    rw [hsplit2, List.take_left]
  have hoffs : (((roffsets rs).drop b).take (e - b + 1)).map
      (· - psumLen rs b) = roffsets ((rs.drop b).take (e - b)) := by
    apply List.ext_getElem?
    intro i
    by_cases hi : i ≤ e - b
    · rw [List.getElem?_map, hget i hi,
        roffsets_getElem? _ i (by rw [hslice_len]; exact hi)]
      simp only [Option.map_some', Option.some.injEq]
      rw [psumLen_add]
      have htt : ((rs.drop b).take (e - b)).take i = (rs.drop b).take i := by
        rw [List.take_take, Nat.min_eq_left hi]
      unfold psumLen
      rw [htt]
      ring
    · rw [List.getElem?_eq_none, List.getElem?_eq_none]
      · rw [roffsets_length, hslice_len]
        omega
      · rw [List.length_map, hlen_offs]
        omega
  have hne := data_ne_offsets name
  simp only [read_dynamic, raggedState_offsets, raggedState_data]
  rw [hhead, hlast, hdata, hoffs]
  rfl

/-- Claim C4 (amended): appending ragged lists through append_tensor_list
seeds the offsets column with 0 and keeps it at records + 1 entries, and
reading back any half-open record range [b, e) with read_dynamic yields
exactly those records, offsets normalized to start at 0; concretely,
after appending [[1,2],[3]] and [[],[4,5,6]], reading records [1,4)
yields [[3],[],[4,5,6]] (the range [1,3) of the original claim yields
only [[3],[]]). -/
theorem ragged_round_trip (name : String) (rss : List (List (List Int)))
    (b e : Nat) (hbe : b ≤ e) (he : e ≤ rss.flatten.length) :
    (rss ≠ [] →
      appendRaggedAll name (rss.map ofRecords) (name ++ "_offsets")
        = some (roffsets rss.flatten) ∧
      (roffsets rss.flatten).length = rss.flatten.length + 1) ∧
    read_dynamic (appendRaggedAll name (rss.map ofRecords)) name b e
      = ofRecords ((rss.flatten.drop b).take (e - b)) := by
  constructor
  · intro hrss
    obtain ⟨r, rss', rfl⟩ := List.exists_cons_of_ne_nil hrss
    rw [appendRaggedAll_state, raggedState_offsets]
    exact ⟨rfl, roffsets_length _⟩
  · cases rss with
    | nil =>
      have hb : b = 0 := by simp at he; omega
      have he0 : e = 0 := by simp at he; omega
      subst hb; subst he0
      rfl
    | cons r rss' =>
      rw [appendRaggedAll_state]
      exact read_dynamic_state name _ b e hbe he

/-- The concrete instance of claim C4 as stated is false: reading
records [1,3) after appending [[1,2],[3]] and [[],[4,5,6]] yields the
two records [[3],[]], not the three records [[3],[],[4,5,6]]. -/
theorem ragged_round_trip_counterexample :
    read_dynamic (appendRaggedAll "lhsd"
      ([[[1, 2], [3]], [[], [4, 5, 6]]].map ofRecords)) "lhsd" 1 3
      ≠ ofRecords [[3], [], [4, 5, 6]] := by
  rw [appendRaggedAll_state]
  rw [read_dynamic_state "lhsd" _ 1 3 (by omega) (by decide)]
  decide

/-- Witness for claim C4 at the corrected concrete instance: the
half-open record range [1,4) returns [[3],[],[4,5,6]]. -/
theorem ragged_round_trip_witness :
    read_dynamic (appendRaggedAll "lhsd"
      ([[[1, 2], [3]], [[], [4, 5, 6]]].map ofRecords)) "lhsd" 1 4
      = ofRecords [[3], [], [4, 5, 6]] := by
  have h := (ragged_round_trip "lhsd" [[[1, 2], [3]], [[], [4, 5, 6]]] 1 4
    (by omega) (by decide)).2
  exact h.trans (by decide)

theorem append_tensor_list_ne (m : DSMap) (name : String) (tl : TensorList)
    (n : String) (h1 : n ≠ name ++ "_offsets") (h2 : n ≠ name ++ "_data") :
    append_tensor_list m name tl n = m n := by
  simp only [append_tensor_list]
  rw [append_tensor_ne _ _ _ _ h2, append_tensor_ne _ _ _ _ h1]
  split
  · rw [append_tensor_ne _ _ _ _ h1]
  · rfl

theorem append_edges_lhsd (m : DSMap) (el : EdgeList)
    (h : el.lhs.tensor_list.data = []) (n : String)
    (hn : n = "lhsd_offsets" ∨ n = "lhsd_data") :
    append_edges m el n = m n := by
  have hlen : el.lhs.tensor_list.data.length = 0 := by rw [h]; rfl
  simp only [append_edges, hlen, ne_eq, not_true_eq_false, if_false]
  rcases hn with rfl | rfl <;>
  · split
    · rw [append_tensor_list_ne _ _ _ _ (by decide) (by decide),
        append_tensor_ne _ _ _ _ (by decide),
        append_tensor_ne _ _ _ _ (by decide),
        append_tensor_ne _ _ _ _ (by decide)]
    · rw [append_tensor_ne _ _ _ _ (by decide),
        append_tensor_ne _ _ _ _ (by decide),
        append_tensor_ne _ _ _ _ (by decide)]

theorem append_edges_rhsd (m : DSMap) (el : EdgeList)
    (h : el.rhs.tensor_list.data = []) (n : String)
    (hn : n = "rhsd_offsets" ∨ n = "rhsd_data") :
    append_edges m el n = m n := by
  have hlen : el.rhs.tensor_list.data.length = 0 := by rw [h]; rfl
  simp only [append_edges, hlen, ne_eq, not_true_eq_false, if_false]
  rcases hn with rfl | rfl <;>
  · split
    · rw [append_tensor_list_ne _ _ _ _ (by decide) (by decide),
        append_tensor_ne _ _ _ _ (by decide),
        append_tensor_ne _ _ _ _ (by decide),
        append_tensor_ne _ _ _ _ (by decide)]
    · rw [append_tensor_ne _ _ _ _ (by decide),
        append_tensor_ne _ _ _ _ (by decide),
        append_tensor_ne _ _ _ _ (by decide)]

/-- Claim C5: an edge list whose lhs (resp. rhs) ragged feature list
has empty data writes no lhsd (resp. rhsd) columns, and read_dynamic on
an absent column returns (e - b + 1) zero offsets with empty data. -/
theorem dynamic_column_omission :
    (∀ (els : List EdgeList),
      (∀ el ∈ els, el.lhs.tensor_list.data = []) →
      ∀ n, (n = "lhsd_offsets" ∨ n = "lhsd_data") →
        (els.foldl append_edges emptyDSMap) n = none) ∧
    (∀ (els : List EdgeList),
      (∀ el ∈ els, el.rhs.tensor_list.data = []) →
      ∀ n, (n = "rhsd_offsets" ∨ n = "rhsd_data") →
        (els.foldl append_edges emptyDSMap) n = none) ∧
    (∀ (m : DSMap) (key : String) (b e : Nat),
      m (key ++ "_offsets") = none ∨ m (key ++ "_data") = none →
      read_dynamic m key b e
        = { offsets := List.replicate (e - b + 1) 0, data := [] }) := by
  have hfold_l : ∀ (els : List EdgeList) (m : DSMap),
      (∀ el ∈ els, el.lhs.tensor_list.data = []) →
      ∀ n, (n = "lhsd_offsets" ∨ n = "lhsd_data") →
        (els.foldl append_edges m) n = m n := by
    intro els
    induction els with
    | nil => intro m _ n _; rfl
    | cons el els ih =>
      intro m hall n hn
      rw [List.foldl_cons, ih _ (fun x hx => hall x (List.mem_cons_of_mem el hx)) n hn,
        append_edges_lhsd m el (hall el (List.mem_cons_self el els)) n hn]
  have hfold_r : ∀ (els : List EdgeList) (m : DSMap),
      (∀ el ∈ els, el.rhs.tensor_list.data = []) →
      ∀ n, (n = "rhsd_offsets" ∨ n = "rhsd_data") →
        (els.foldl append_edges m) n = m n := by
    intro els
    induction els with
    | nil => intro m _ n _; rfl
    | cons el els ih =>
      intro m hall n hn
      rw [List.foldl_cons, ih _ (fun x hx => hall x (List.mem_cons_of_mem el hx)) n hn,
        append_edges_rhsd m el (hall el (List.mem_cons_self el els)) n hn]
  refine ⟨?_, ?_, ?_⟩
  · intro els hall n hn
    rw [hfold_l els emptyDSMap hall n hn]
    rfl
  · intro els hall n hn
    rw [hfold_r els emptyDSMap hall n hn]
    rfl
  · intro m key b e h
    rcases h with h | h
    · simp [read_dynamic, h]
    · cases hm : m (key ++ "_offsets") with
      | none => simp [read_dynamic, hm]
      | some offs => simp [read_dynamic, hm, h]

/-- Witness for claim C5: one edge with no ragged features leaves the
lhsd offsets column absent. -/
theorem dynamic_column_omission_witness :
    (([{ lhs := { tensor := [5], tensor_list := { offsets := [0], data := [] } },
         rhs := { tensor := [6], tensor_list := { offsets := [0], data := [] } },
         rel := [7] }] : List EdgeList).foldl append_edges emptyDSMap)
      "lhsd_offsets" = none :=
  dynamic_column_omission.1
    [{ lhs := { tensor := [5], tensor_list := { offsets := [0], data := [] } },
       rhs := { tensor := [6], tensor_list := { offsets := [0], data := [] } },
       rel := [7] }]
    (by intro el hel; rw [List.mem_singleton] at hel; subst hel; rfl)
    "lhsd_offsets" (Or.inl rfl)

end GraphStorages
